import Mathlib

/-!
Verification of the query-templating and execution pipeline of the
helix-queries repository.  The JavaScript source (`src/sendquery.js`, the
universal entry point, and the query templates) is shallowly embedded:
strings are lists of characters, JavaScript objects are ordered association
lists with insert-or-update semantics, the BigQuery row stream is a list of
rows together with a serialized-size measure, and the effectful `execute`
function becomes a pure function returning the trace of collaborator calls
next to its outcome.
-/

namespace HelixQueries

/-! ## JavaScript string primitives -/

/-- `String.prototype.split` with a one-character separator
(JavaScript `query.split('\n')`). -/
def jsSplitChar (a : Char) : List Char → List (List Char)
  | [] => [[]]
  | c :: rest =>
    if c = a then [] :: jsSplitChar a rest
    else
      match jsSplitChar a rest with
      | [] => [[c]]
      | s :: ss => (c :: s) :: ss

/-- `String.prototype.split` with a two-character separator
(JavaScript `e.split(': ')`).  Matches are found left to right and do not
overlap. -/
def jsSplitPair (a b : Char) : List Char → List (List Char)
  | [] => [[]]
  | [c] => [[c]]
  | c :: d :: rest =>
    if c = a ∧ d = b then [] :: jsSplitPair a b rest
    else
      match jsSplitPair a b (d :: rest) with
      | [] => [[c]]
      | s :: ss => (c :: s) :: ss

/-- Whether the two-character sequence `a b` occurs (contiguously) in a
string; the separator-occurrence test matching `jsSplitPair`. -/
def hasPair (a b : Char) : List Char → Bool
  | c :: d :: rest => if c = a ∧ d = b then true else hasPair a b (d :: rest)
  | _ => false

/-- `String.prototype.startsWith` (JavaScript `e.startsWith('---')`). -/
def startsWithList : List Char → List Char → Bool
  | [], _ => true
  | _ :: _, [] => false
  | a :: as, b :: bs => a = b && startsWithList as bs

/-- `String.prototype.indexOf` for a single character, returning `-1` when
the character is absent (JavaScript `e.indexOf(':')`). -/
def jsIndexOf : List Char → Char → Int
  | [], _ => -1
  | c :: rest, t =>
    if c = t then 0
    else
      if jsIndexOf rest t < 0 then -1 else jsIndexOf rest t + 1

/-- Whether the two-character sequence `pat` occurs nowhere-or-somewhere in
`l`; used to state that a template body contains the metadata sentinel. -/
def containsSeq (pat : List Char) : List Char → Bool
  | [] => startsWithList pat []
  | c :: rest => startsWithList pat (c :: rest) || containsSeq pat rest

/-! ## JavaScript object primitives

A JavaScript object is modelled as an ordered association list with the
property-assignment semantics of `acc[k] = v`: assigning to an existing key
updates it in place (keeping its position), assigning to a fresh key appends
it. -/

/-- Property assignment `obj[k] = v` on a JavaScript object. -/
def objInsert {β : Type} (obj : List (List Char × β)) (k : List Char) (v : β) :
    List (List Char × β) :=
  if obj.any (fun p => decide (p.1 = k)) then
    obj.map (fun p => if p.1 = k then (k, v) else p)
  else obj ++ [(k, v)]

/-- Property read `obj[k]`, `none` when the key is absent. -/
def objLookup {β : Type} : List (List Char × β) → List Char → Option β
  | [], _ => none
  | p :: rest, k => if p.1 = k then some p.2 else objLookup rest k

/-- The object built by assigning a list of key/value pairs in order into an
initially empty object (the `reduce` in `getExtraParameters`). -/
def jsObjOf {β : Type} (entries : List (List Char × β)) : List (List Char × β) :=
  entries.foldl (fun acc kv => objInsert acc kv.1 kv.2) []

/-- Property deletion `delete obj[k]` (JavaScript
`delete requestParams.domainkey`). -/
def jsDeleteKey {β : Type} (obj : List (List Char × β)) (k : List Char) :
    List (List Char × β) :=
  obj.filter (fun p => decide (p.1 ≠ k))

/-- Whether a property key is a canonical decimal digit string: nonempty,
all digits, and without a leading zero unless it is exactly `"0"`.  Keys
like `"05"` are ordinary string keys in JavaScript. -/
def isCanonicalDigits : List Char → Bool
  | [] => false
  | [c] => c.isDigit
  | c :: rest => (c.isDigit && decide (c ≠ '0')) && rest.all Char.isDigit

/-- The numeric value of a digit-string key. -/
def keyNumVal (k : List Char) : ℕ :=
  k.foldl (fun a c => a * 10 + (c.toNat - '0'.toNat)) 0

/-- Whether a property key is an array index in the JavaScript sense: the
canonical decimal form of an integer below `2^32 - 1`.  Such keys are
enumerated before all other keys, in ascending numeric order. -/
def isArrayIndexKey (k : List Char) : Bool :=
  isCanonicalDigits k && decide (keyNumVal k < 4294967295)

/-- Insert an entry into a list sorted ascending by numeric key value. -/
def insertByNum {β : Type} (p : List Char × β) :
    List (List Char × β) → List (List Char × β)
  | [] => [p]
  | q :: rest =>
    if keyNumVal p.1 ≤ keyNumVal q.1 then p :: q :: rest
    else q :: insertByNum p rest

/-- Insertion sort by numeric key value. -/
def sortByNum {β : Type} : List (List Char × β) → List (List Char × β)
  | [] => []
  | p :: rest => insertByNum p (sortByNum rest)

/-- The enumeration order of a JavaScript object's entries
(`Object.entries`, `JSON.stringify`): array-index-like keys first, in
ascending numeric order, then the remaining string keys in
property-creation order. -/
def objEntries {β : Type} (obj : List (List Char × β)) : List (List Char × β) :=
  sortByNum (obj.filter (fun p => isArrayIndexKey p.1))
    ++ obj.filter (fun p => ! isArrayIndexKey p.1)

/-! ## The metadata header parser

From `src/sendquery.js` lines 22-32:

```
function getExtraParameters(query){
  return query.split('\n').
  filter(e => e.startsWith('---')).
  filter(e => e.indexOf(':') > 0).
  map(e => e.substring(4).split(': ')).
  reduce((acc, val) => {
    acc[val[0]] = val[1];
    return acc;
  }, {})
}
```

`val[1]` is `undefined` when the split produced a single field, so values
are `Option (List Char)`. -/

/-- The header parser of `src/sendquery.js`. -/
def getExtraParameters (query : List Char) : List (List Char × Option (List Char)) :=
  ((((jsSplitChar '\n' query).filter
        (fun e => startsWithList "---".data e)).filter
        (fun e => decide (0 < jsIndexOf e ':'))).map
        (fun e => jsSplitPair ':' ' ' (e.drop 4))).foldl
    (fun acc val => objInsert acc (val.headD []) val[1]?) []

/-- The combined filter condition of `getExtraParameters`: the lines that
contribute to the returned object. -/
def isMetaLine (e : List Char) : Bool :=
  startsWithList "---".data e && decide (0 < jsIndexOf e ':')

/-- The metadata lines of a template body, in order. -/
def metaLines (query : List Char) : List (List Char) :=
  (jsSplitChar '\n' query).filter isMetaLine

/-- The key/value pair a single metadata line contributes
(`val[0]` and `val[1]` of the source). -/
def metaEntry (e : List Char) : List Char × Option (List Char) :=
  ((jsSplitPair ':' ' ' (e.drop 4)).headD [], (jsSplitPair ':' ' ' (e.drop 4))[1]?)

/-! ## The streaming truncation policy

From `src/sendquery.js` lines 54-82: rows are accumulated into `results`;
`spaceleft` samples the average serialized row size once the tenth row has
been accumulated and stops the stream as soon as
`avgsize * results.length > 1024 * 1024 * 0.9`.  Serialized sizes are
rationals; the serializer `size` is an arbitrary measure on the accumulated
array. -/

/-- The memory budget `1024 * 1024 * 0.9` of `spaceleft`. -/
def budget : ℚ := 1024 * 1024 * (9 / 10)

/-- The outcome `{truncated, results}` that `execute` resolves with. -/
structure ExecResult (α : Type) where
  truncated : Bool
  results : List α
deriving DecidableEq

/-- The `avgsize` update of `spaceleft`: once ten rows have been
accumulated the average serialized row size is sampled. -/
def sampleAvg {α : Type} (sz : List α → ℚ) (results : List α) (avg : ℚ) : ℚ :=
  if results.length = 10 then sz results / (results.length : ℚ) else avg

/-- The row-stream loop of `execute`: for each arriving row, `spaceleft`
updates `avgsize` and compares the size estimate against the budget; on
failure the promise resolves early with `truncated = true`, otherwise the
row is pushed and, at the natural end of the stream, the promise resolves
with `truncated = false`. -/
def runStream {α : Type} (sz : List α → ℚ) : List α → List α → ℚ → ExecResult α
  | [], results, _ => { truncated := false, results := results }
  | r :: rest, results, avg =>
    if budget < sampleAvg sz results avg * (results.length : ℚ) then
      { truncated := true, results := results }
    else runStream sz rest (results ++ [r]) (sampleAvg sz results avg)

/-- The result `execute` resolves with, as a function of the rows the
warehouse stream yields. -/
def executeRows {α : Type} (sz : List α → ℚ) (rows : List α) : ExecResult α :=
  runStream sz rows [] 0

/-! ## Parameter values and `parseInt`

Caller parameters are strings or numbers; `parseInt(x, 10)` skips leading
whitespace, accepts an optional sign, and reads the longest leading digit
run, yielding `NaN` (modelled as `none`) when no digit is found.  For an
integer number argument, `parseInt` first stringifies it and parses it
back, which is the identity. -/

/-- A JavaScript parameter value reaching `execute`. -/
inductive JSVal where
  | str : List Char → JSVal
  | num : Int → JSVal
deriving DecidableEq

/-- `value * 10 + digit` accumulation over a leading digit run. -/
def parseDigits : List Char → Nat → Nat
  | [], acc => acc
  | c :: rest, acc =>
    if c.isDigit then parseDigits rest (acc * 10 + (c.toNat - '0'.toNat)) else acc

/-- The leading digit run of a string as a number, `none` when the string
does not start with a digit. -/
def leadingNat : List Char → Option Nat
  | [] => none
  | c :: rest =>
    if c.isDigit then some (parseDigits rest (c.toNat - '0'.toNat)) else none

/-- `parseInt(s, 10)` on a string. -/
def jsParseIntStr (s : List Char) : Option Int :=
  match s.dropWhile (fun c => c = ' ' ∨ c = '\t' ∨ c = '\n') with
  | '-' :: rest => (leadingNat rest).map (fun n => -(n : Int))
  | '+' :: rest => (leadingNat rest).map (fun n => (n : Int))
  | rest => (leadingNat rest).map (fun n => (n : Int))

/-- `parseInt(params.limit, 10)`: `NaN` (`none`) on an absent value, the
identity on integer numbers, string parsing otherwise. -/
def jsParseInt : Option JSVal → Option Int
  | some (JSVal.num n) => some n
  | some (JSVal.str s) => jsParseIntStr s
  | none => none

/-! ## The `execute` pipeline

From `src/sendquery.js` lines 41-86.  The effectful collaborators become an
environment: whether `auth(email, key)` succeeds, whether the
`dataset(...).get()` lookup succeeds, the file system backing `loadQuery`,
and the row stream the warehouse produces for the submitted query.  The
model returns the ordered trace of collaborator calls next to the outcome,
so that statements about what was or was not attempted become statements
about the trace. -/

/-- A caller parameter map. -/
def ParamObj : Type := List (List Char × JSVal)
deriving DecidableEq

/-- A collaborator call made by `execute`, in order: credential
acquisition, dataset lookup, and streaming-query submission (carrying the
SQL text, `maxResults`, and the out-of-band `params` map). -/
inductive Event where
  | auth : Event
  | datasetGet : Event
  | querySubmit : List Char → Option Int → ParamObj → Event
deriving DecidableEq

/-- The failure kinds of the modelled `execute`. -/
inductive ExecError where
  | authFailure : ExecError
  | datasetFailure : ExecError
  | fileNotFound : ExecError
deriving DecidableEq

/-- The collaborators and warehouse behaviour `execute` runs against. -/
structure Env (α : Type) where
  authOk : Bool
  datasetOk : Bool
  files : List Char → Option (List Char)
  stream : List α
  sz : List α → ℚ

/-- `query.replace(/^\//, '')`: strip one leading path separator. -/
def stripLeadingSlash : List Char → List Char
  | '/' :: rest => rest
  | l => l

/-- The file-system path `loadQuery` resolves a query name to
(`src/sendquery.js` line 19): the stripped name with the `.sql` extension,
relative to the queries directory. -/
def queryPath (q : List Char) : List Char :=
  stripLeadingSlash q ++ ".sql".data

/-- `loadQuery` from `src/sendquery.js` lines 18-20: read the resolved
template file, `none` when it is absent. -/
def loadQuery (files : List Char → Option (List Char)) (q : List Char) :
    Option (List Char) :=
  files (queryPath q)

/-- The key `"limit"`. -/
def limitKey : List Char := "limit".data

/-- The key `"offset"`. -/
def offsetKey : List Char := "offset".data

/-- The key `"domainkey"`. -/
def domainkeyKey : List Char := "domainkey".data

/-- The `# hlx:metadata` sentinel line marker of the query templates. -/
def sentinel : List Char := "# hlx:metadata".data

/-- The `execute` pipeline of `src/sendquery.js` lines 41-86: acquire
credentials, look the dataset up, then build the streaming query
(evaluating `loadQuery(query)` and `parseInt(params.limit, 10)` at that
point) and consume its row stream under the truncation policy.  Returns
the trace of collaborator calls next to the outcome. -/
def executeModel {α : Type} (env : Env α) (q : List Char) (params : ParamObj) :
    List Event × Except ExecError (ExecResult α) :=
  if env.authOk then
    if env.datasetOk then
      match loadQuery env.files q with
      | none => ([Event.auth, Event.datasetGet], Except.error ExecError.fileNotFound)
      | some sql =>
        ([Event.auth, Event.datasetGet,
          Event.querySubmit sql (jsParseInt (objLookup params limitKey)) params],
         Except.ok (executeRows env.sz env.stream))
    else ([Event.auth, Event.datasetGet], Except.error ExecError.datasetFailure)
  else ([Event.auth], Except.error ExecError.authFailure)

/-- Whether an `execute` outcome is a failure. -/
def isError {α : Type} : Except ExecError (ExecResult α) → Bool
  | Except.error _ => true
  | Except.ok _ => false

/-! ## The parameter binder

Modelled from the spec: the Parameter Binder (`bind` of spec section 4.2)
lives in the repository's current `sendquery` module, which is not among
the provided sources (only its caller, the universal entry point, is).
For every key in the declared parameter set, the caller-supplied value is
taken when present and non-empty, else the declared default; a declared
parameter with neither fails with `InvalidParameter`. -/

/-- The binder failure: a required parameter had no value and no default. -/
inductive BindError where
  | invalidParameter : List Char → BindError
deriving DecidableEq

/-- Modelled from the spec: resolve one declared parameter against the
caller map — the caller value when present and non-empty, else the
declared default, else nothing. -/
def resolveParam (caller : List Char → Option (List Char)) (name : List Char)
    (deflt : Option (List Char)) : Option (List Char) :=
  match caller name with
  | some v => if v = [] then deflt else some v
  | none => deflt

/-- Modelled from the spec: bind one declared parameter or fail with
`InvalidParameter`. -/
def bindOne (caller : List Char → Option (List Char)) (name : List Char)
    (deflt : Option (List Char)) : Except BindError (List Char) :=
  match resolveParam caller name deflt with
  | some v => Except.ok v
  | none => Except.error (BindError.invalidParameter name)

/-- Modelled from the spec: the Parameter Binder — bind every declared
parameter in order, failing on the first unresolvable one. -/
def bind (declared : List (List Char × Option (List Char)))
    (caller : List Char → Option (List Char)) :
    Except BindError (List (List Char × List Char)) :=
  match declared with
  | [] => Except.ok []
  | (n, d) :: rest =>
    match bindOne caller n d, bind rest caller with
    | Except.error e, _ => Except.error e
    | Except.ok _, Except.error e => Except.error e
    | Except.ok v, Except.ok vs => Except.ok ((n, v) :: vs)

/-- Modelled from the spec: the Pipeline Orchestrator around the binder —
the warehouse query `run` is only reached when binding succeeded. -/
def orchestrate {β : Type} (declared : List (List Char × Option (List Char)))
    (caller : List Char → Option (List Char))
    (run : List (List Char × List Char) → β) : Except BindError β :=
  (bind declared caller).map run

/-! ## The result-envelope redaction

From the universal entry point (`runExec`): after `execute` returns, the
echoed copy of the request parameters is stripped of `domainkey`
(`delete requestParams.domainkey; // don't leak the domainkey`) before it
is rendered into the result envelope.  Modelled from the spec for the part
absent from the sources: the current `sendquery` module echoes the bound
parameter map it executed with as `requestParams`. -/

/-- The parameter maps of one request: the map the query executed with and
the copy echoed into the result envelope. -/
structure ExecEcho (β : Type) where
  execParams : List (List Char × β)
  echoedParams : List (List Char × β)

/-- The redaction step of `runExec`: execution used `bound` unchanged; the
echoed copy is `bound` with the `domainkey` property deleted. -/
def runExecRedaction {β : Type} (bound : List (List Char × β)) : ExecEcho β :=
  { execParams := bound, echoedParams := jsDeleteKey bound domainkeyKey }

/-! ## Concrete instances used by the witnesses -/

/-- An environment whose file system is empty: every query name is
unknown. -/
def envNoFiles : Env Unit :=
  { authOk := true, datasetOk := true, files := fun _ => none,
    stream := [], sz := fun _ => 0 }

/-- An environment that serves a fixed template text for every path. -/
def envWithFile (t : List Char) : Env Unit :=
  { authOk := true, datasetOk := true, files := fun _ => some t,
    stream := [], sz := fun _ => 0 }

/-- A template consisting of a primary statement, the metadata sentinel
line, and a secondary statement. -/
def sentinelTemplate : List Char :=
  "SELECT 1\n# hlx:metadata\nSELECT COUNT(*) AS total_rows".data

/-- A caller parameter map whose `limit` and `offset` are the strings
`"7"` and `"5"`. -/
def stringParams : ParamObj :=
  [(limitKey, JSVal.str "7".data), (offsetKey, JSVal.str "5".data)]

/-! ## Lemmas: object construction -/

theorem objInsert_fresh {β : Type} (obj : List (List Char × β)) (k : List Char)
    (v : β) (h : ∀ p ∈ obj, p.1 ≠ k) : objInsert obj k v = obj ++ [(k, v)] := by
  have hc : ¬obj.any (fun p => decide (p.1 = k)) = true := by
    simp only [List.any_eq_true, decide_eq_true_eq, not_exists]
    intro p
    rintro ⟨hp, hk⟩
    exact h p hp hk
  unfold objInsert
  rw [if_neg hc]

theorem jsObjOf_aux {β : Type} :
    ∀ (entries acc : List (List Char × β)),
      ((acc ++ entries).map Prod.fst).Nodup →
      entries.foldl (fun a kv => objInsert a kv.1 kv.2) acc = acc ++ entries := by
  intro entries
  induction entries with
  | nil => intro acc _; simp
  | cons kv rest ih =>
    intro acc hnd
    have hnd2 : (acc.map Prod.fst ++ (kv :: rest).map Prod.fst).Nodup := by
      rw [← List.map_append]; exact hnd
    have hfresh : ∀ p ∈ acc, p.1 ≠ kv.1 := by
      intro p hp
      have hmem : p.1 ∈ acc.map Prod.fst := List.mem_map_of_mem _ hp
      have hmem2 : kv.1 ∈ (kv :: rest).map Prod.fst :=
        List.mem_map_of_mem _ (List.mem_cons_self _ _)
      have hdisj := (List.nodup_append.mp hnd2).2.2
      intro hc
      exact hdisj hmem (by rw [hc]; exact hmem2)
    have hstep : objInsert acc kv.1 kv.2 = acc ++ [kv] := by
      rw [objInsert_fresh acc kv.1 kv.2 hfresh]
    have hassoc : (acc ++ [kv]) ++ rest = acc ++ kv :: rest := by simp
    calc (kv :: rest).foldl (fun a p => objInsert a p.1 p.2) acc
        = rest.foldl (fun a p => objInsert a p.1 p.2) (objInsert acc kv.1 kv.2) := by
          rw [List.foldl_cons]
      _ = rest.foldl (fun a p => objInsert a p.1 p.2) (acc ++ [kv]) := by rw [hstep]
      _ = (acc ++ [kv]) ++ rest := by
          apply ih
          rw [hassoc]
          exact hnd
      _ = acc ++ kv :: rest := hassoc

theorem objEntries_of_no_index {β : Type} (l : List (List Char × β))
    (h : ∀ p ∈ l, isArrayIndexKey p.1 = false) : objEntries l = l := by
  unfold objEntries
  have h1 : l.filter (fun p => isArrayIndexKey p.1) = [] := by
    rw [List.filter_eq_nil_iff]
    intro p hp
    simp [h p hp]
  have h2 : l.filter (fun p => ! isArrayIndexKey p.1) = l := by
    rw [List.filter_eq_self]
    intro p hp
    simp [h p hp]
  rw [h1, h2]
  rfl

theorem jsObjOf_of_nodup {β : Type} (entries : List (List Char × β))
    (h : (entries.map Prod.fst).Nodup) : jsObjOf entries = entries := by
  have h2 : ((([] : List (List Char × β)) ++ entries).map Prod.fst).Nodup := by
    rw [List.nil_append]; exact h
  have h3 := jsObjOf_aux entries [] h2
  rw [List.nil_append] at h3
  exact h3

theorem foldl_objInsert_map {β γ : Type} (g : γ → List Char × β) :
    ∀ (l : List γ) (acc : List (List Char × β)),
      (l.map g).foldl (fun a kv => objInsert a kv.1 kv.2) acc
        = l.foldl (fun a x => objInsert a (g x).1 (g x).2) acc := by
  intro l
  induction l with
  | nil => intro acc; rfl
  | cons x xs ih =>
    intro acc
    rw [List.map_cons, List.foldl_cons, List.foldl_cons]
    exact ih _

theorem getExtraParameters_eq (query : List Char) :
    getExtraParameters query = jsObjOf ((metaLines query).map metaEntry) := by
  unfold getExtraParameters jsObjOf metaLines metaEntry isMetaLine
  have h1 : (fun a => decide (0 < jsIndexOf a ':') && startsWithList "---".data a)
      = (fun e => startsWithList "---".data e && decide (0 < jsIndexOf e ':')) := by
    funext e
    exact Bool.and_comm _ _
  rw [List.filter_filter, h1, List.foldl_map, foldl_objInsert_map]

/-! ## Lemmas: object lookup and deletion -/

theorem objLookup_jsDeleteKey_self {β : Type} (obj : List (List Char × β))
    (k : List Char) : objLookup (jsDeleteKey obj k) k = none := by
  induction obj with
  | nil => rfl
  | cons p rest ih =>
    by_cases h : p.1 = k
    · simpa [jsDeleteKey, h] using ih
    · simpa [jsDeleteKey, objLookup, h] using ih

theorem mem_jsDeleteKey {β : Type} {obj : List (List Char × β)} {k : List Char}
    {p : List Char × β} (h : p ∈ jsDeleteKey obj k) : p ∈ obj ∧ p.1 ≠ k := by
  have := List.mem_filter.mp h
  exact ⟨this.1, by simpa using this.2⟩

theorem objLookup_cons_ne {β : Type} {p : List Char × β}
    {rest : List (List Char × β)} {k : List Char} (h : ¬p.1 = k) :
    objLookup (p :: rest) k = objLookup rest k := by
  simp only [objLookup]
  rw [if_neg h]

theorem objLookup_cons_self {β : Type} (k : List Char) (v : β)
    (rest : List (List Char × β)) : objLookup ((k, v) :: rest) k = some v := by
  simp [objLookup]

/-! ## Lemmas: line splitting and the header filter -/

theorem jsSplitChar_of_not_mem (a : Char) :
    ∀ (l : List Char), a ∉ l → jsSplitChar a l = [l] := by
  intro l
  induction l with
  | nil => intro _; rfl
  | cons c rest ih =>
    intro h
    have hc : ¬c = a := fun hc => h (by simp [hc])
    have hr : a ∉ rest := fun hr => h (List.mem_cons_of_mem _ hr)
    rw [jsSplitChar, if_neg hc, ih hr]

theorem jsIndexOf_nonneg_of_mem {t : Char} :
    ∀ {l : List Char}, t ∈ l → 0 ≤ jsIndexOf l t := by
  intro l
  induction l with
  | nil => intro h; cases h
  | cons c rest ih =>
    intro h
    by_cases hc : c = t
    · simp [jsIndexOf, hc]
    · have hr : t ∈ rest := by
        rcases List.mem_cons.mp h with h1 | h1
        · exact absurd h1.symm hc
        · exact h1
      have := ih hr
      rw [jsIndexOf, if_neg hc, if_neg (by omega)]
      omega

theorem jsIndexOf_cons_pos {t c : Char} {l : List Char} (hm : t ∈ l)
    (hc : ¬c = t) : 0 < jsIndexOf (c :: l) t := by
  have := jsIndexOf_nonneg_of_mem hm
  rw [jsIndexOf, if_neg hc, if_neg (by omega)]
  omega

/-! ## Lemmas: the pair split at a separator boundary -/

theorem hasPair_cons_elim {a b c d : Char} {rest : List Char}
    (h : hasPair a b (c :: d :: rest) = false) :
    ¬(c = a ∧ d = b) ∧ hasPair a b (d :: rest) = false := by
  by_cases hcd : c = a ∧ d = b
  · rw [hasPair, if_pos hcd] at h; cases h
  · rw [hasPair, if_neg hcd] at h; exact ⟨hcd, h⟩

theorem jsSplitPair_append_sep {a b : Char} (hab : a ≠ b) :
    ∀ (k r : List Char), hasPair a b k = false →
      jsSplitPair a b (k ++ a :: b :: r) = k :: jsSplitPair a b r := by
  intro k
  induction k with
  | nil =>
    intro r _
    simp [jsSplitPair]
  | cons c k' ih =>
    intro r hk
    cases k' with
    | nil =>
      have hne : ¬(c = a ∧ a = b) := fun h => hab h.2
      have hbase : jsSplitPair a b (a :: b :: r) = [] :: jsSplitPair a b r := by
        simp [jsSplitPair]
      simp only [List.cons_append, List.nil_append]
      rw [jsSplitPair, if_neg hne, hbase]
    | cons d k'' =>
      obtain ⟨hne, htail⟩ := hasPair_cons_elim hk
      have ihr := ih r htail
      simp only [List.cons_append] at ihr ⊢
      rw [jsSplitPair, if_neg hne, ihr]

/-! ## Claim C2 -/

/-- Claim C2 counterexample: two refutations of "exactly N entries in the
order the lines appear".  The body `"--- b: 1\n--- 5: 2"` has two
well-formed lines with distinct keys, yet the object's enumerated entries
put the array-index-like key `"5"` before `"b"`, not in line order; the
body `"--- a: 1\n--- a: 2"` has two well-formed lines but a single entry,
the later assignment having overwritten the earlier one. -/
theorem c2_counterexample :
    metaLines "--- b: 1\n--- 5: 2".data = ["--- b: 1".data, "--- 5: 2".data] ∧
    (metaLines "--- b: 1\n--- 5: 2".data).map metaEntry
        = [("b".data, some "1".data), ("5".data, some "2".data)] ∧
    objEntries (getExtraParameters "--- b: 1\n--- 5: 2".data)
        = [("5".data, some "2".data), ("b".data, some "1".data)] ∧
    metaLines "--- a: 1\n--- a: 2".data = ["--- a: 1".data, "--- a: 2".data] ∧
    objEntries (getExtraParameters "--- a: 1\n--- a: 2".data)
        = [("a".data, some "2".data)] ∧
    (objEntries (getExtraParameters "--- a: 1\n--- a: 2".data)).length = 1 := by
  decide

/-- Claim C2 (amended): for every template body whose metadata lines carry
pairwise-distinct keys, none of which is an array-index-like string, the
enumerated entries of the parsed header are exactly one per metadata line,
in the order the lines appear; lines not beginning with the `---` marker,
or beginning with it but containing no colon, contribute no entry (they
are filtered out of `metaLines`). -/
theorem c2_header_parser_entries (query : List Char)
    (hnd : ((metaLines query).map (fun e => (metaEntry e).1)).Nodup)
    (hidx : ∀ e ∈ metaLines query, isArrayIndexKey (metaEntry e).1 = false) :
    objEntries (getExtraParameters query) = (metaLines query).map metaEntry ∧
    (objEntries (getExtraParameters query)).length = (metaLines query).length := by
  have hkeys : (((metaLines query).map metaEntry).map Prod.fst).Nodup := by
    rw [List.map_map]
    exact hnd
  have hg : getExtraParameters query = (metaLines query).map metaEntry := by
    rw [getExtraParameters_eq, jsObjOf_of_nodup _ hkeys]
  have hno : ∀ p ∈ (metaLines query).map metaEntry, isArrayIndexKey p.1 = false := by
    intro p hp
    obtain ⟨e, he, hpe⟩ := List.mem_map.mp hp
    rw [← hpe]
    exact hidx e he
  rw [hg, objEntries_of_no_index _ hno]
  constructor
  · rfl
  · rw [List.length_map]

/-- Witness for C2: a concrete body with two distinct, non-index-like keys
and one plain SQL line parses and enumerates to the two entries in line
order. -/
theorem c2_header_parser_entries_witness :
    objEntries (getExtraParameters "--- a: 1\nSELECT 1\n--- b: 2".data)
      = (metaLines "--- a: 1\nSELECT 1\n--- b: 2".data).map metaEntry :=
  (c2_header_parser_entries _ (by decide) (by decide)).1

/-! ## Claim C10 -/

/-- Claim C10: on a metadata line `--- k: v` whose value text itself
contains the two-character delimiter `": "` (so `v = v1 ++ ": " ++ v2` with
`v1` free of the delimiter), `getExtraParameters` stores under `k` only the
portion `v1` strictly before the first inner delimiter; the remainder of
the line is dropped. -/
theorem c10_inner_separator_truncates_value (k v1 v2 : List Char)
    (hk : hasPair ':' ' ' k = false) (hv1 : hasPair ':' ' ' v1 = false)
    (hkn : '\n' ∉ k) (hv1n : '\n' ∉ v1) (hv2n : '\n' ∉ v2) :
    getExtraParameters
        ('-' :: '-' :: '-' :: ' ' :: (k ++ ':' :: ' ' :: (v1 ++ ':' :: ' ' :: v2)))
      = [(k, some v1)] := by
  have hnl : ('\n' : Char) ∉
      ('-' :: '-' :: '-' :: ' ' :: (k ++ ':' :: ' ' :: (v1 ++ ':' :: ' ' :: v2))) := by
    intro h
    rcases List.mem_cons.mp h with h | h
    · exact absurd h (by decide)
    rcases List.mem_cons.mp h with h | h
    · exact absurd h (by decide)
    rcases List.mem_cons.mp h with h | h
    · exact absurd h (by decide)
    rcases List.mem_cons.mp h with h | h
    · exact absurd h (by decide)
    rcases List.mem_append.mp h with h | h
    · exact hkn h
    rcases List.mem_cons.mp h with h | h
    · exact absurd h (by decide)
    rcases List.mem_cons.mp h with h | h
    · exact absurd h (by decide)
    rcases List.mem_append.mp h with h | h
    · exact hv1n h
    rcases List.mem_cons.mp h with h | h
    · exact absurd h (by decide)
    rcases List.mem_cons.mp h with h | h
    · exact absurd h (by decide)
    exact hv2n h
  have hsplit := jsSplitChar_of_not_mem '\n' _ hnl
  have hmem3 : (':' : Char) ∈
      ('-' :: '-' :: ' ' :: (k ++ ':' :: ' ' :: (v1 ++ ':' :: ' ' :: v2))) :=
    List.mem_cons_of_mem _ (List.mem_cons_of_mem _
      (List.mem_cons_of_mem _
        (List.mem_append_right _ (List.mem_cons_self _ _))))
  have hidx : 0 < jsIndexOf
      ('-' :: '-' :: '-' :: ' ' :: (k ++ ':' :: ' ' :: (v1 ++ ':' :: ' ' :: v2))) ':' :=
    jsIndexOf_cons_pos hmem3 (by decide)
  have hdat : "---".data = ['-', '-', '-'] := rfl
  have hstart : startsWithList "---".data
      ('-' :: '-' :: '-' :: ' ' :: (k ++ ':' :: ' ' :: (v1 ++ ':' :: ' ' :: v2))) = true := by
    rw [hdat]
    simp [startsWithList]
  have hml : isMetaLine
      ('-' :: '-' :: '-' :: ' ' :: (k ++ ':' :: ' ' :: (v1 ++ ':' :: ' ' :: v2))) = true := by
    unfold isMetaLine
    rw [hstart, decide_eq_true hidx]
    rfl
  have hmetaLines : metaLines
      ('-' :: '-' :: '-' :: ' ' :: (k ++ ':' :: ' ' :: (v1 ++ ':' :: ' ' :: v2)))
      = [('-' :: '-' :: '-' :: ' ' :: (k ++ ':' :: ' ' :: (v1 ++ ':' :: ' ' :: v2)))] := by
    unfold metaLines
    rw [hsplit, List.filter_cons, if_pos (by rw [hml])]
    rfl
  have hdrop : List.drop 4
      ('-' :: '-' :: '-' :: ' ' :: (k ++ ':' :: ' ' :: (v1 ++ ':' :: ' ' :: v2)))
      = k ++ ':' :: ' ' :: (v1 ++ ':' :: ' ' :: v2) := rfl
  have hs1 : jsSplitPair ':' ' ' (k ++ ':' :: ' ' :: (v1 ++ ':' :: ' ' :: v2))
      = k :: jsSplitPair ':' ' ' (v1 ++ ':' :: ' ' :: v2) :=
    jsSplitPair_append_sep (by decide) k _ hk
  have hs2 : jsSplitPair ':' ' ' (v1 ++ ':' :: ' ' :: v2)
      = v1 :: jsSplitPair ':' ' ' v2 :=
    jsSplitPair_append_sep (by decide) v1 _ hv1
  have hentry : metaEntry
      ('-' :: '-' :: '-' :: ' ' :: (k ++ ':' :: ' ' :: (v1 ++ ':' :: ' ' :: v2)))
      = (k, some v1) := by
    unfold metaEntry
    rw [hdrop, hs1, hs2]
    simp
  rw [getExtraParameters_eq, hmetaLines, List.map_cons, List.map_nil, hentry]
  rfl

/-- Witness for C10: `"--- key: a: b"` parses to the single entry
`key ↦ a`, dropping `": b"`. -/
theorem c10_inner_separator_truncates_value_witness :
    getExtraParameters
        ('-' :: '-' :: '-' :: ' ' :: ("key".data ++ ':' :: ' ' :: ("a".data ++ ':' :: ' ' :: "b".data)))
      = [("key".data, some "a".data)] :=
  c10_inner_separator_truncates_value "key".data "a".data "b".data
    (by decide) (by decide) (by decide) (by decide) (by decide)

/-! ## Claim C5 -/

/-- Claim C5: the parameter copy echoed into the result envelope is the
bound map with the `domainkey` property deleted — it contains neither the
key nor (when no other parameter carries the same value) the value — while
the map used for the query execution is the unchanged bound map, still
carrying the original `domainkey` value. -/
theorem c5_domainkey_redaction (dkv : JSVal) (bound : List (List Char × JSVal))
    (hdk : objLookup bound domainkeyKey = some dkv)
    (hval : ∀ p ∈ bound, p.1 ≠ domainkeyKey → p.2 ≠ dkv) :
    objLookup (runExecRedaction bound).echoedParams domainkeyKey = none ∧
    (∀ p ∈ (runExecRedaction bound).echoedParams, p.1 ≠ domainkeyKey ∧ p.2 ≠ dkv) ∧
    (runExecRedaction bound).execParams = bound ∧
    objLookup (runExecRedaction bound).execParams domainkeyKey = some dkv := by
  refine ⟨objLookup_jsDeleteKey_self bound domainkeyKey, ?_, rfl, hdk⟩
  intro p hp
  obtain ⟨hpb, hpk⟩ := mem_jsDeleteKey hp
  exact ⟨hpk, hval p hpb hpk⟩

/-- Witness for C5: a concrete bound map with a secret `domainkey` loses
that key in the echoed copy. -/
theorem c5_domainkey_redaction_witness :
    objLookup (runExecRedaction
        [(domainkeyKey, JSVal.str "s3cret".data),
         ("url".data, JSVal.str "example.com".data)]).echoedParams domainkeyKey
      = none :=
  (c5_domainkey_redaction (JSVal.str "s3cret".data) _ (by decide) (by decide)).1

/-! ## Claim C3 -/

theorem bindOne_eq_ok {caller : List Char → Option (List Char)}
    {n : List Char} {d : Option (List Char)} {v : List Char} :
    bindOne caller n d = Except.ok v ↔ resolveParam caller n d = some v := by
  unfold bindOne
  cases h : resolveParam caller n d <;> simp

theorem bindOne_eq_err {caller : List Char → Option (List Char)}
    {n : List Char} {d : Option (List Char)} :
    bindOne caller n d = Except.error (BindError.invalidParameter n) ↔
      resolveParam caller n d = none := by
  unfold bindOne
  cases h : resolveParam caller n d <;> simp

/-- Claim C3: binding resolves each declared parameter to the
caller-supplied value when present and non-empty, else to the declared
default; a declared parameter with no caller value and no default makes
`bind` fail with `InvalidParameter`, and on a binder failure the
orchestrator never reaches the query. -/
theorem c3_parameter_binding (declared : List (List Char × Option (List Char)))
    (caller : List Char → Option (List Char))
    (hnd : (declared.map Prod.fst).Nodup) :
    (∀ n d, (n, d) ∈ declared → ∀ bound, bind declared caller = Except.ok bound →
      ∀ v, resolveParam caller n d = some v → objLookup bound n = some v) ∧
    (∀ n, (n, (none : Option (List Char))) ∈ declared → caller n = none →
      ∃ m, bind declared caller = Except.error (BindError.invalidParameter m)) ∧
    (∀ e, bind declared caller = Except.error e →
      ∀ (β : Type) (run : List (List Char × List Char) → β),
        orchestrate declared caller run = Except.error e) := by
  refine ⟨?_, ?_, ?_⟩
  · induction declared with
    | nil => intro n d hmem; cases hmem
    | cons hd rest ih =>
      obtain ⟨n0, d0⟩ := hd
      intro n d hmem bound hok v hres
      have hnd0 : n0 ∉ rest.map Prod.fst := (List.nodup_cons.mp hnd).1
      have hndr : (rest.map Prod.fst).Nodup := (List.nodup_cons.mp hnd).2
      simp only [bind] at hok
      cases h1 : bindOne caller n0 d0 with
      | error e1 => rw [h1] at hok; cases hok
      | ok v0 =>
        cases h2 : bind rest caller with
        | error e2 => rw [h1, h2] at hok; cases hok
        | ok vs =>
          rw [h1, h2] at hok
          have hbound : bound = (n0, v0) :: vs := by
            cases hok; rfl
          rcases List.mem_cons.mp hmem with hh | ht
          · have hn : n = n0 := congrArg Prod.fst hh
            have hd : d = d0 := congrArg Prod.snd hh
            have hv0 : resolveParam caller n0 d0 = some v0 := bindOne_eq_ok.mp h1
            rw [hn, hd] at hres
            rw [hres] at hv0
            have : v0 = v := by cases hv0; rfl
            rw [hbound, hn, this]
            exact objLookup_cons_self n0 v vs
          · have hne : n ≠ n0 := by
              intro hc
              apply hnd0
              rw [← hc]
              exact List.mem_map_of_mem _ ht
            rw [hbound]
            rw [objLookup_cons_ne (fun h => hne (Eq.symm h))]
            exact ih hndr n d ht vs h2 v hres
  · induction declared with
    | nil => intro n hmem; cases hmem
    | cons hd rest ih =>
      obtain ⟨n0, d0⟩ := hd
      intro n hmem hcall
      have hndr : (rest.map Prod.fst).Nodup := (List.nodup_cons.mp hnd).2
      rcases List.mem_cons.mp hmem with hh | ht
      · have hn : n0 = n := (congrArg Prod.fst hh).symm
        have hd : d0 = (none : Option (List Char)) := (congrArg Prod.snd hh).symm
        have hres : resolveParam caller n0 d0 = none := by
          rw [hn, hd]
          unfold resolveParam
          rw [hcall]
        have herr : bindOne caller n0 d0
            = Except.error (BindError.invalidParameter n0) := bindOne_eq_err.mpr hres
        refine ⟨n0, ?_⟩
        simp only [bind]
        rw [herr]
      · obtain ⟨m, hm⟩ := ih hndr n ht hcall
        cases h1 : bindOne caller n0 d0 with
        | error e1 =>
          cases e1 with
          | invalidParameter m0 =>
            refine ⟨m0, ?_⟩
            simp only [bind]
            rw [h1]
        | ok v0 =>
          refine ⟨m, ?_⟩
          simp only [bind]
          rw [h1, hm]
  · intro e he β run
    unfold orchestrate
    rw [he]
    rfl

/-- Witness for C3: a declared parameter `k` with no default and no caller
value makes the binder fail with `InvalidParameter`. -/
theorem c3_parameter_binding_witness :
    ∃ m, bind [("url".data, some "-".data), ("k".data, (none : Option (List Char)))]
        (fun n => if n = "url".data then some "example.com".data else none)
      = Except.error (BindError.invalidParameter m) :=
  (c3_parameter_binding _ _ (by decide)).2.1 "k".data (by decide) (by decide)

/-! ## Lemmas: the truncation policy -/

theorem budget_pos : (0 : ℚ) < budget := by norm_num [budget]

theorem runStream_nil {α : Type} (sz : List α → ℚ) (results : List α) (avg : ℚ) :
    runStream sz [] results avg = { truncated := false, results := results } := rfl

theorem runStream_cons {α : Type} (sz : List α → ℚ) (r : α) (rest results : List α)
    (avg : ℚ) :
    runStream sz (r :: rest) results avg =
      if budget < sampleAvg sz results avg * (results.length : ℚ) then
        { truncated := true, results := results }
      else runStream sz rest (results ++ [r]) (sampleAvg sz results avg) := rfl

theorem sampleAvg_ne {α : Type} (sz : List α → ℚ) {results : List α} (avg : ℚ)
    (h : results.length ≠ 10) : sampleAvg sz results avg = avg := by
  unfold sampleAvg
  rw [if_neg h]

/-- Before the tenth row is in, the estimate is `0` and `0 * n` never
exceeds the (positive) budget, so every row of a short stream is pushed. -/
theorem runStream_zero_small {α : Type} (sz : List α → ℚ) :
    ∀ (rest results : List α), results.length + rest.length ≤ 10 →
      runStream sz rest results 0 = { truncated := false, results := results ++ rest } := by
  intro rest
  induction rest with
  | nil =>
    intro results _
    rw [runStream_nil, List.append_nil]
  | cons r rest ih =>
    intro results h
    have hlen : results.length ≠ 10 := by
      simp only [List.length_cons] at h
      omega
    have hs : sampleAvg sz results 0 = 0 := sampleAvg_ne sz 0 hlen
    have hneg : ¬budget < (0 : ℚ) * (results.length : ℚ) := by
      rw [zero_mul]
      exact not_lt.mpr (le_of_lt budget_pos)
    have h2 : (results ++ [r]).length + rest.length ≤ 10 := by
      simp only [List.length_append, List.length_cons, List.length_nil] at h ⊢
      omega
    rw [runStream_cons, hs, if_neg hneg, ih (results ++ [r]) h2]
    simp

/-- Running from an under-ten accumulator with estimate `0` just transfers
rows until ten are in (or the stream ends). -/
theorem runStream_zero_fill {α : Type} (sz : List α → ℚ) :
    ∀ (rest results : List α), results.length < 10 →
      runStream sz rest results 0 =
        runStream sz (rest.drop (10 - results.length))
          (results ++ rest.take (10 - results.length)) 0 := by
  intro rest
  induction rest with
  | nil =>
    intro results _
    simp
  | cons r rest ih =>
    intro results hlt
    have hlen : results.length ≠ 10 := by omega
    have hs : sampleAvg sz results 0 = 0 := sampleAvg_ne sz 0 hlen
    have hneg : ¬budget < (0 : ℚ) * (results.length : ℚ) := by
      rw [zero_mul]
      exact not_lt.mpr (le_of_lt budget_pos)
    have hd : 10 - results.length = (10 - (results.length + 1)) + 1 := by omega
    rw [runStream_cons, hs, if_neg hneg, hd, List.drop_succ_cons, List.take_succ_cons]
    by_cases h10 : results.length + 1 = 10
    · have hd0 : 10 - (results.length + 1) = 0 := by omega
      rw [hd0, List.drop_zero, List.take_zero]
    · have hlt2 : (results ++ [r]).length < 10 := by
        simp only [List.length_append, List.length_cons, List.length_nil]
        omega
      have hlen2 : (results ++ [r]).length = results.length + 1 := by simp
      rw [ih (results ++ [r]) hlt2, hlen2, List.append_assoc, List.singleton_append]

/-- Once more than ten rows are accumulated the estimate is frozen, and
the run either finishes with every remaining row appended or stops at the
first arriving row whose count pushes the estimate over the budget. -/
theorem runStream_big {α : Type} (sz : List α → ℚ) (avg : ℚ) :
    ∀ (rest results : List α), 10 < results.length →
      (runStream sz rest results avg
          = { truncated := false, results := results ++ rest } ∧
        ∀ k, k < rest.length → avg * ((results.length + k : ℕ) : ℚ) ≤ budget) ∨
      (∃ k, k < rest.length ∧ budget < avg * ((results.length + k : ℕ) : ℚ) ∧
        (∀ j, j < k → avg * ((results.length + j : ℕ) : ℚ) ≤ budget) ∧
        runStream sz rest results avg
          = { truncated := true, results := results ++ rest.take k }) := by
  intro rest
  induction rest with
  | nil =>
    intro results _
    left
    constructor
    · rw [runStream_nil, List.append_nil]
    · intro k hk
      simp at hk
  | cons r rest ih =>
    intro results hlen
    have hne : results.length ≠ 10 := by omega
    have hs : sampleAvg sz results avg = avg := sampleAvg_ne sz avg hne
    have hlen1 : (results ++ [r]).length = results.length + 1 := by simp
    by_cases hc : budget < avg * (results.length : ℚ)
    · right
      refine ⟨0, by simp, by simpa using hc, ?_, ?_⟩
      · intro j hj
        exact absurd hj (Nat.not_lt_zero j)
      · rw [runStream_cons, hs, if_pos hc]
        simp
    · have hstep : runStream sz (r :: rest) results avg
          = runStream sz rest (results ++ [r]) avg := by
        rw [runStream_cons, hs, if_neg hc]
      rcases ih (results ++ [r]) (by rw [hlen1]; omega) with ⟨heq, hall⟩ |
        ⟨k, hk, hgt, hmin, heq⟩
      · left
        constructor
        · rw [hstep, heq, List.append_assoc, List.singleton_append]
        · intro k hk2
          cases k with
          | zero => simpa using not_lt.mp hc
          | succ j =>
            have hj : j < rest.length := by
              simp only [List.length_cons] at hk2
              omega
            have h2 := hall j hj
            have he : (results ++ [r]).length + j = results.length + (j + 1) := by
              rw [hlen1]
              omega
            rw [he] at h2
            exact h2
      · right
        refine ⟨k + 1, ?_, ?_, ?_, ?_⟩
        · simp only [List.length_cons]
          omega
        · have he : (results ++ [r]).length + k = results.length + (k + 1) := by
            rw [hlen1]
            omega
          rw [he] at hgt
          exact hgt
        · intro j hj
          cases j with
          | zero => simpa using not_lt.mp hc
          | succ i =>
            have hi : i < k := by omega
            have h2 := hmin i hi
            have he : (results ++ [r]).length + i = results.length + (i + 1) := by
              rw [hlen1]
              omega
            rw [he] at h2
            exact h2
        · rw [hstep, heq, List.take_succ_cons, List.append_assoc, List.singleton_append]

/-! ## Claim C1 -/

/-- Claim C1: the result is truncated exactly when the sampled estimate
(the serialized size of the first ten accumulated rows divided by ten,
taken once) multiplied by the current row count exceeds the
`1024 * 1024 * 0.9` budget while rows are still arriving; an untruncated
run returns every received row, and a truncated run returns the prefix of
rows accumulated up to the first crossing (at least ten of them). -/
theorem c1_truncation_policy {α : Type} (sz : List α → ℚ) (rows : List α) :
    ((executeRows sz rows).truncated = true ↔
      ∃ n : ℕ, 10 ≤ n ∧ n < rows.length ∧
        budget < sz (rows.take 10) / 10 * (n : ℚ)) ∧
    ((executeRows sz rows).truncated = false → (executeRows sz rows).results = rows) ∧
    ((executeRows sz rows).truncated = true →
      ∃ n : ℕ, 10 ≤ n ∧ n < rows.length ∧
        budget < sz (rows.take 10) / 10 * (n : ℚ) ∧
        (executeRows sz rows).results = rows.take n ∧
        ∀ m : ℕ, 10 ≤ m → m < n → sz (rows.take 10) / 10 * (m : ℚ) ≤ budget) := by
  by_cases hlen : rows.length ≤ 10
  · have h0 : ([] : List α).length + rows.length ≤ 10 := by simpa using hlen
    have hres : executeRows sz rows = { truncated := false, results := rows } := by
      have h1 := runStream_zero_small sz rows [] h0
      rw [List.nil_append] at h1
      exact h1
    refine ⟨?_, ?_, ?_⟩
    · rw [hres]
      constructor
      · intro h
        simp at h
      · rintro ⟨n, h10, hn, _⟩
        exact absurd (lt_of_lt_of_le hn hlen) (not_lt.mpr h10)
    · intro _
      rw [hres]
    · rw [hres]
      intro h
      simp at h
  · push_neg at hlen
    have hfill := runStream_zero_fill sz rows [] (by simp)
    simp only [List.length_nil, Nat.sub_zero, List.nil_append] at hfill
    have hdne : rows.drop 10 ≠ [] := by
      intro hc
      have hld : (rows.drop 10).length = rows.length - 10 := List.length_drop _ _
      rw [hc] at hld
      simp at hld
      omega
    obtain ⟨r, rest', hdr⟩ := List.exists_cons_of_ne_nil hdne
    have htake10len : (rows.take 10).length = 10 := by
      rw [List.length_take, min_eq_left (by omega)]
    have hcast : (((rows.take 10).length : ℕ) : ℚ) = (10 : ℚ) := by
      rw [htake10len]
      norm_num
    have hs10 : sampleAvg sz (rows.take 10) 0 = sz (rows.take 10) / 10 := by
      unfold sampleAvg
      rw [if_pos htake10len, hcast]
    have hstep1 : executeRows sz rows = runStream sz (r :: rest') (rows.take 10) 0 := by
      have h1 : executeRows sz rows = runStream sz (rows.drop 10) (rows.take 10) 0 := hfill
      rw [hdr] at h1
      exact h1
    have htake11 : rows.take 10 ++ [r] = rows.take 11 := by
      have h1 : rows.take 11 = rows.take 10 ++ (rows.drop 10).take 1 := by
        rw [show (11 : ℕ) = 10 + 1 from rfl, List.take_add]
      rw [hdr] at h1
      simp at h1
      rw [h1]
    have hrest' : rest' = rows.drop 11 := by
      have h1 : (rows.drop 10).tail = rows.drop (10 + 1) := List.tail_drop rows 10
      rw [hdr] at h1
      exact h1
    have h11len : (rows.take 11).length = 11 := by
      rw [List.length_take, min_eq_left (by omega)]
    have hrestlen : rest'.length = rows.length - 11 := by
      rw [hrest', List.length_drop]
    by_cases h10 : budget < sz (rows.take 10) / 10 * (10 : ℚ)
    · have hres : executeRows sz rows
          = { truncated := true, results := rows.take 10 } := by
        rw [hstep1, runStream_cons, hs10, if_pos (by rw [hcast]; exact h10)]
      refine ⟨?_, ?_, ?_⟩
      · rw [hres]
        exact ⟨fun _ => ⟨10, le_refl 10, by omega, by exact_mod_cast h10⟩, fun _ => rfl⟩
      · rw [hres]
        intro h
        simp at h
      · rw [hres]
        intro _
        exact ⟨10, le_refl 10, by omega, by exact_mod_cast h10, rfl,
          fun m hm1 hm2 => absurd hm2 (not_lt.mpr hm1)⟩
    · have hstep2 : executeRows sz rows
          = runStream sz rest' (rows.take 11) (sz (rows.take 10) / 10) := by
        rw [hstep1, runStream_cons, hs10, if_neg (by rw [hcast]; exact h10), htake11]
      rcases runStream_big sz (sz (rows.take 10) / 10) rest' (rows.take 11)
          (by rw [h11len]; omega) with ⟨heq, hall⟩ | ⟨k, hk, hgt, hmin, heq⟩
      · have hres : executeRows sz rows = { truncated := false, results := rows } := by
          rw [hstep2, heq, hrest']
          have h1 : rows.take 11 ++ rows.drop 11 = rows := List.take_append_drop 11 rows
          rw [h1]
        refine ⟨?_, ?_, ?_⟩
        · rw [hres]
          constructor
          · intro h
            simp at h
          · rintro ⟨n, hn10, hnlen, hngt⟩
            exfalso
            by_cases hn10e : n = 10
            · rw [hn10e] at hngt
              exact h10 (by exact_mod_cast hngt)
            · have hklt : n - 11 < rest'.length := by
                rw [hrestlen]
                omega
              have h2 := hall (n - 11) hklt
              have he : (rows.take 11).length + (n - 11) = n := by
                rw [h11len]
                omega
              rw [he] at h2
              exact absurd hngt (not_lt.mpr h2)
        · intro _
          rw [hres]
        · rw [hres]
          intro h
          simp at h
      · have hk2 : k < rows.length - 11 := by
          rw [hrestlen] at hk
          exact hk
        have hres : executeRows sz rows
            = { truncated := true, results := rows.take (11 + k) } := by
          rw [hstep2, heq]
          have h1 : rows.take 11 ++ rest'.take k = rows.take (11 + k) := by
            rw [hrest', List.take_add]
          rw [h1]
        have hgt2 : budget < sz (rows.take 10) / 10 * ((11 + k : ℕ) : ℚ) := by
          have he : (rows.take 11).length + k = 11 + k := by rw [h11len]
          rw [he] at hgt
          exact hgt
        have hminm : ∀ m : ℕ, 10 ≤ m → m < 11 + k →
            sz (rows.take 10) / 10 * (m : ℚ) ≤ budget := by
          intro m hm1 hm2
          by_cases hm10 : m = 10
          · rw [hm10]
            exact_mod_cast not_lt.mp h10
          · have hj : m - 11 < k := by omega
            have h2 := hmin (m - 11) hj
            have he : (rows.take 11).length + (m - 11) = m := by
              rw [h11len]
              omega
            rw [he] at h2
            exact h2
        refine ⟨?_, ?_, ?_⟩
        · rw [hres]
          exact ⟨fun _ => ⟨11 + k, by omega, by omega, hgt2⟩, fun _ => rfl⟩
        · rw [hres]
          intro h
          simp at h
        · rw [hres]
          intro _
          exact ⟨11 + k, by omega, by omega, hgt2, rfl, hminm⟩

/-- Witness for C1: with a constant serialized size of 2,000,000 the
estimate crosses the budget at the sampling point, so a twelve-row stream
truncates. -/
theorem c1_truncation_policy_witness :
    (executeRows (fun _ => (2000000 : ℚ)) [1, 2, 3, 4, 5, 6, 7, 8, 9, 10, 11, 12]).truncated
        = true ∧
    ∃ n : ℕ, 10 ≤ n ∧ n < 12 ∧ budget < 2000000 / 10 * (n : ℚ) ∧
      (executeRows (fun _ => (2000000 : ℚ))
          [1, 2, 3, 4, 5, 6, 7, 8, 9, 10, 11, 12]).results
        = ([1, 2, 3, 4, 5, 6, 7, 8, 9, 10, 11, 12] : List ℕ).take n ∧
      ∀ m : ℕ, 10 ≤ m → m < n → 2000000 / 10 * (m : ℚ) ≤ budget :=
  ⟨by norm_num [executeRows, runStream, sampleAvg, budget],
    (c1_truncation_policy (fun _ => (2000000 : ℚ))
      [1, 2, 3, 4, 5, 6, 7, 8, 9, 10, 11, 12]).2.2
      (by norm_num [executeRows, runStream, sampleAvg, budget])⟩

/-! ## Claim C9 -/

/-- Claim C9: a stream of at most ten rows always completes untruncated
with every row, whatever the serialized sizes are — the estimate is only
sampled when the tenth row has been accumulated, so truncation can first
fire on the eleventh received row. -/
theorem c9_short_streams {α : Type} (sz : List α → ℚ) (rows : List α)
    (h : rows.length ≤ 10) :
    executeRows sz rows = { truncated := false, results := rows } := by
  have h0 : ([] : List α).length + rows.length ≤ 10 := by simpa using h
  have h1 := runStream_zero_small sz rows [] h0
  rw [List.nil_append] at h1
  exact h1

/-- Witness for C9: three rows of serialized size one billion are all
returned untruncated. -/
theorem c9_short_streams_witness :
    ([0, 1, 2] : List ℕ).length ≤ 10 ∧
    executeRows (fun _ => (1000000000 : ℚ)) [0, 1, 2]
      = { truncated := false, results := [0, 1, 2] } :=
  ⟨by decide, c9_short_streams (fun _ => (1000000000 : ℚ)) [0, 1, 2] (by decide)⟩

/-! ## Claim C4 -/

/-- Claim C4 counterexample: with a working warehouse and an empty query
catalog, executing the unknown name `"nope"` fails — but the trace shows
credential acquisition and the dataset lookup were both attempted before
the template load failed, refuting "no warehouse call is attempted". -/
theorem c4_counterexample :
    (executeModel envNoFiles "nope".data ([] : ParamObj)).1
        = [Event.auth, Event.datasetGet] ∧
    Event.auth ∈ (executeModel envNoFiles "nope".data ([] : ParamObj)).1 ∧
    Event.datasetGet ∈ (executeModel envNoFiles "nope".data ([] : ParamObj)).1 ∧
    isError (executeModel envNoFiles "nope".data ([] : ParamObj)).2 = true := by
  decide

/-- Claim C4 (amended): a query name that resolves to no template file
makes `execute` fail — with the file-not-found error whenever credential
acquisition and the dataset lookup succeed — and no streaming query is
ever submitted; credential acquisition and the dataset lookup, however, do
run before the load failure, because the template is only loaded while
building the streaming query. -/
theorem c4_unknown_query {α : Type} (env : Env α) (q : List Char)
    (params : ParamObj) (hf : loadQuery env.files q = none) :
    isError (executeModel env q params).2 = true ∧
    (env.authOk = true → env.datasetOk = true →
      (executeModel env q params).2 = Except.error ExecError.fileNotFound) ∧
    ∀ sql mr ps, Event.querySubmit sql mr ps ∉ (executeModel env q params).1 := by
  cases ha : env.authOk
  · refine ⟨?_, ?_, ?_⟩
    · simp [executeModel, ha, isError]
    · intro h1 _
      exact absurd h1 (by decide)
    · intro sql mr ps
      simp [executeModel, ha]
  · cases hd : env.datasetOk
    · refine ⟨?_, ?_, ?_⟩
      · simp [executeModel, ha, hd, isError]
      · intro _ h2
        exact absurd h2 (by decide)
      · intro sql mr ps
        simp [executeModel, ha, hd]
    · refine ⟨?_, ?_, ?_⟩
      · simp [executeModel, ha, hd, hf, isError]
      · intro _ _
        simp [executeModel, ha, hd, hf]
      · intro sql mr ps
        simp [executeModel, ha, hd, hf]

/-- Witness for C4 (amended): the unknown name `"nope"` against the empty
catalog, with working warehouse collaborators, fails with the
file-not-found error and without any query submission. -/
theorem c4_unknown_query_witness :
    loadQuery envNoFiles.files "nope".data = none ∧
    (isError (executeModel envNoFiles "nope".data ([] : ParamObj)).2 = true ∧
      (envNoFiles.authOk = true → envNoFiles.datasetOk = true →
        (executeModel envNoFiles "nope".data ([] : ParamObj)).2
          = Except.error ExecError.fileNotFound) ∧
      ∀ sql mr ps,
        Event.querySubmit sql mr ps ∉ (executeModel envNoFiles "nope".data ([] : ParamObj)).1) :=
  ⟨rfl, c4_unknown_query envNoFiles "nope".data ([] : ParamObj) rfl⟩

/-! ## Claim C6 -/

/-- Claim C6: every submitted streaming query carries exactly the loaded
template text as its SQL — the caller parameters travel only in the
out-of-band `params` map — so two executions of the same query name with
different caller parameter maps submit identical SQL text. -/
theorem c6_sql_is_template {α : Type} (env : Env α) (q : List Char)
    (p1 p2 : ParamObj) :
    (∀ sql mr ps, Event.querySubmit sql mr ps ∈ (executeModel env q p1).1 →
      loadQuery env.files q = some sql ∧ ps = p1) ∧
    (∀ sql1 mr1 ps1 sql2 mr2 ps2,
      Event.querySubmit sql1 mr1 ps1 ∈ (executeModel env q p1).1 →
      Event.querySubmit sql2 mr2 ps2 ∈ (executeModel env q p2).1 →
      sql1 = sql2) := by
  cases ha : env.authOk
  · constructor
    · intro sql mr ps hmem
      simp [executeModel, ha] at hmem
    · intro sql1 mr1 ps1 sql2 mr2 ps2 h1 h2
      simp [executeModel, ha] at h1
  · cases hd : env.datasetOk
    · constructor
      · intro sql mr ps hmem
        simp [executeModel, ha, hd] at hmem
      · intro sql1 mr1 ps1 sql2 mr2 ps2 h1 h2
        simp [executeModel, ha, hd] at h1
    · cases hf : loadQuery env.files q
      · constructor
        · intro sql mr ps hmem
          simp [executeModel, ha, hd, hf] at hmem
        · intro sql1 mr1 ps1 sql2 mr2 ps2 h1 h2
          simp [executeModel, ha, hd, hf] at h1
      · constructor
        · intro sql mr ps hmem
          simp [executeModel, ha, hd, hf] at hmem
          exact ⟨by rw [hmem.1], hmem.2.2⟩
        · intro sql1 mr1 ps1 sql2 mr2 ps2 h1 h2
          simp [executeModel, ha, hd, hf] at h1 h2
          rw [h1.1, h2.1]

/-- Witness for C6: a concrete execution submits exactly the stored
template text, with the caller map passed out of band. -/
theorem c6_sql_is_template_witness :
    loadQuery (envWithFile "SELECT 1".data).files "q".data = some "SELECT 1".data ∧
    stringParams = stringParams :=
  (c6_sql_is_template (envWithFile "SELECT 1".data) "q".data stringParams stringParams).1
    "SELECT 1".data (jsParseInt (objLookup stringParams limitKey)) stringParams
    (by decide)

/-! ## Claim C7 -/

/-- Claim C7 (code refutation): a template containing the `# hlx:metadata`
sentinel is submitted to the warehouse exactly once, as the combined
unsplit text still containing the sentinel; no second statement is ever
produced and no Metadata Counter stage exists in `execute`. -/
theorem c7_unsplit_submission :
    containsSeq sentinel sentinelTemplate = true ∧
    (executeModel (envWithFile sentinelTemplate) "rum-attribution".data
        ([] : ParamObj)).1
      = [Event.auth, Event.datasetGet,
         Event.querySubmit sentinelTemplate none ([] : ParamObj)] := by
  decide

/-! ## Claim C8 -/

/-- Claim C8 counterexample: with caller strings `limit = "7"` and
`offset = "5"`, the issued streaming query uses `parseInt` only for
`maxResults`; the out-of-band parameter map still carries `offset` as the
original string, never as an integer — `offset` is not coerced before the
query is issued. -/
theorem c8_counterexample :
    (executeModel (envWithFile "SELECT 1".data) "q".data stringParams).1
      = [Event.auth, Event.datasetGet,
         Event.querySubmit "SELECT 1".data (some 7) stringParams] ∧
    ∀ n : Int, objLookup stringParams offsetKey ≠ some (JSVal.num n) := by
  refine ⟨by decide, fun n h => ?_⟩
  have h0 : objLookup stringParams offsetKey = some (JSVal.str "5".data) := by decide
  rw [h0] at h
  simp at h

/-- Claim C8 (amended): only `limit` is parsed — every submitted query has
`maxResults = parseInt(params.limit, 10)` and passes the caller parameter
map itself, unchanged (so `offset`, and the map's own `limit` entry, keep
their original uncoerced values). -/
theorem c8_limit_parse_only {α : Type} (env : Env α) (q : List Char)
    (params : ParamObj) :
    ∀ sql mr ps, Event.querySubmit sql mr ps ∈ (executeModel env q params).1 →
      mr = jsParseInt (objLookup params limitKey) ∧ ps = params := by
  cases ha : env.authOk
  · intro sql mr ps hmem
    simp [executeModel, ha] at hmem
  · cases hd : env.datasetOk
    · intro sql mr ps hmem
      simp [executeModel, ha, hd] at hmem
    · cases hf : loadQuery env.files q
      · intro sql mr ps hmem
        simp [executeModel, ha, hd, hf] at hmem
      · intro sql mr ps hmem
        simp [executeModel, ha, hd, hf] at hmem
        exact ⟨hmem.2.1, hmem.2.2⟩

/-- Witness for C8 (amended): the concrete submission of `c8` carries
`maxResults = 7` parsed from the string limit, and the unchanged map. -/
theorem c8_limit_parse_only_witness :
    jsParseInt (objLookup stringParams limitKey) = some 7 ∧
    stringParams = stringParams := by
  have h := c8_limit_parse_only (envWithFile "SELECT 1".data) "q".data stringParams
    "SELECT 1".data (some 7) stringParams (by decide)
  exact ⟨h.1.symm, h.2⟩

end HelixQueries
